import Mathlib

/-
Verification development for `scripts/check_translations.py`, a translation
string checker.  The script extracts translatable strings from HTML and
JavaScript sources, filters out non-translatable ones, and compares the kept
set against the union of keys of the per-language JSON catalogs, reporting
"missing" and "unused" translations; an alternate mode exports the kept set
into a base catalog.  Below, the relevant parts of the script are embedded
shallowly: sets of strings become `Finset String`, ordered JSON objects become
association lists, and the regular expressions of the script are translated
into executable character-list matchers (Python's `\w` is modelled as the
ASCII word characters, and `$` with its Python semantics of also matching
just before a final newline).
-/

namespace CheckTranslations

/-- Reserved keys that are not in source code (`SPECIAL_KEYS`, line 46). -/
def SPECIAL_KEYS : Finset String := {".authorMsg", ".title"}

/-- The same reserved keys, as the list Python's `sorted` would rank them in
(`sorted(SPECIAL_KEYS)` is used by the exporter). -/
def SPECIAL_KEYS_LIST : List String := [".authorMsg", ".title"]

/-- Allow-list of strings that may stay in language files although unused
(`WHITELIST_UNUSED`, lines 59-103). -/
def WHITELIST_UNUSED : Finset String :=
  { "(beta)",
    "30th Anniversary",
    "Astro Bot",
    "Chroma Indigo",
    "Chroma Pearl",
    "Chroma Teal",
    "Cobalt Blue",
    "Cosmic Red",
    "Fortnite",
    "Galactic Purple",
    "God of War Ragnarok",
    "Grey Camouflage",
    "Midnight Black",
    "Nova Pink",
    "Spider-Man 2",
    "Starlight Blue",
    "Sterling Silver",
    "The Last of Us",
    "Volcanic Red",
    "White",
    "Sony DualSense",
    "Sony DualSense Edge",
    "Sony DualShock 4 V1",
    "Sony DualShock 4 V2",
    "Calibration in progress",
    "Continue",
    "Start",
    "Initializing...",
    "Sampling...",
    "left module",
    "right module",
    "Your device might not be a genuine Sony controller. If it is not a clone then please report this issue.",
    "Adaptive Trigger",
    "Buttons",
    "Haptic Vibration",
    "Headphone Jack",
    "Lights",
    "Microphone",
    "Speaker",
    "USB Connector" }

/-- ASCII model of Python's regex class `\w` (word character). -/
def isWordChar (c : Char) : Bool :=
  (97 ≤ c.toNat && c.toNat ≤ 122) || (65 ≤ c.toNat && c.toNat ≤ 90) ||
    (48 ≤ c.toNat && c.toNat ≤ 57) || c = '_'

/-- The regex class `[\w-]` used by the selector patterns. -/
def isWordDash (c : Char) : Bool :=
  isWordChar c || c = '-'

/-- The regex class `[0-9a-fA-F]` of the hex-escape pattern. -/
def isHexDigit (c : Char) : Bool :=
  (48 ≤ c.toNat && c.toNat ≤ 57) || (97 ≤ c.toNat && c.toNat ≤ 102) ||
    (65 ≤ c.toNat && c.toNat ≤ 70)

/-- Python's `$` anchor: matches at the end of the string or just before a
single trailing newline. -/
def dollarAnchor : List Char → Bool
  | [] => true
  | ['\n'] => true
  | _ => false

/-- Matches `p+$`: a non-empty greedy run of characters satisfying `p`,
followed by the end anchor.  Greedy matching is exact here because `p` never
accepts the newline that `dollarAnchor` may consume. -/
def plusDollar (p : Char → Bool) (cs : List Char) : Bool :=
  let run := cs.takeWhile p
  (!run.isEmpty) && dollarAnchor (cs.drop run.length)

/-- Pattern 1, `^\.[\w-]+$`: CSS class selectors like `.alert`, `.hide`. -/
def matchClassSelector : List Char → Bool
  | '.' :: rest => plusDollar isWordDash rest
  | _ => false

/-- Pattern 2, `^#[\w-]+$`: CSS ID selectors. -/
def matchIdSelector : List Char → Bool
  | '#' :: rest => plusDollar isWordDash rest
  | _ => false

/-- Pattern 3, `^[\w-]+\.[\w-]+$`: compound selectors like `circle.ds-touch`. -/
def matchCompoundSelector (cs : List Char) : Bool :=
  let run := cs.takeWhile isWordDash
  if run.isEmpty then false
  else
    match cs.drop run.length with
    | '.' :: rest => plusDollar isWordDash rest
    | _ => false

/-- Pattern 4, `^path,rect,circle`: SVG element lists (prefix match only). -/
def matchSvgList (cs : List Char) : Bool :=
  ("path,rect,circle").toList.isPrefixOf cs

/-- Pattern 5, `^\\x[0-9a-fA-F]+$`: hex escape sequences. -/
def matchHexEscape : List Char → Bool
  | '\\' :: 'x' :: rest => plusDollar isHexDigit rest
  | _ => false

/-- `should_exclude_string` (lines 157-162): left-anchored match of any of
the five `EXCLUDE_PATTERNS` against the string. -/
def should_exclude_string (s : String) : Bool :=
  matchClassSelector s.data || matchIdSelector s.data ||
    matchCompoundSelector s.data || matchSvgList s.data || matchHexEscape s.data

/-- The set `excluded_strings` of `main` (line 397): extracted strings that
match an exclusion pattern. -/
def excluded_strings (allUsed : Finset String) : Finset String :=
  allUsed.filter (fun s => should_exclude_string s = true)

/-- The set `used_strings` of `main` (lines 398-399): extracted strings that
survive the exclusion filter. -/
def used_strings (allUsed : Finset String) : Finset String :=
  allUsed.filter (fun s => s ∉ excluded_strings allUsed)

/-- `translation_keys_for_comparison` (line 423): the union of catalog keys
with the reserved keys removed. -/
def translation_keys_for_comparison (translation_keys : Finset String) : Finset String :=
  translation_keys \ SPECIAL_KEYS

/-- `missing_translations` (line 431): used in code but not in catalogs. -/
def missing_translations (allUsed translation_keys : Finset String) : Finset String :=
  used_strings allUsed \ translation_keys_for_comparison translation_keys

/-- `unused_translations` (line 443): in catalogs but not used in code, minus
the allow-list. -/
def unused_translations (allUsed translation_keys : Finset String) : Finset String :=
  (translation_keys_for_comparison translation_keys \ used_strings allUsed) \ WHITELIST_UNUSED

/-- Fuelled scanner behind `replace2`; the fuel only serves to make the
recursion structural (a failed two-character match restarts the scan one
character later, which is not a structural descent on the list).  With fuel
at least the length of the list, the fuel never runs out. -/
def replace2Fuel (a b r : Char) : Nat → List Char → List Char
  | 0, l => l
  | _ + 1, [] => []
  | n + 1, c :: rest =>
    if c = a then
      match rest with
      | d :: rest2 =>
        if d = b then r :: replace2Fuel a b r n rest2
        else c :: replace2Fuel a b r n (d :: rest2)
      | [] => [c]
    else c :: replace2Fuel a b r n rest

/-- Leftmost, non-overlapping replacement of the two-character pattern `a b`
by the single character `r`, the behaviour of Python's `str.replace` for the
two-character patterns used at line 242. -/
def replace2 (a b r : Char) (l : List Char) : List Char :=
  replace2Fuel a b r l.length l

/-- Unescaping performed on a captured literal (line 242 and line 294):
`text.replace` of backslash-quote by quote, backslash-doublequote by
doublequote, then backslash-backslash by backslash, in that order. -/
def unescape (s : List Char) : List Char :=
  replace2 '\\' '\\' '\\' (replace2 '\\' '"' '"' (replace2 '\\' '\'' '\'' s))

/-- Re-escaping of one character, following the claim's words: quote
characters and backslashes get a backslash prefix. -/
def escChar (c : Char) : List Char :=
  if c = '\\' then ['\\', '\\']
  else if c = '\'' then ['\\', '\'']
  else if c = '"' then ['\\', '"']
  else [c]

/-- Re-escaping quotes and backslashes in a whole string. -/
def reescape (s : List Char) : List Char :=
  s.flatMap escChar

/-- Literal contents whose escape sequences are limited to escaped quotes and
escaped backslashes: every backslash starts one of the two-character
sequences backslash-quote, backslash-doublequote or backslash-backslash. -/
def wellEscaped : List Char → Bool
  | [] => true
  | c :: rest =>
    if c = '\\' then
      match rest with
      | d :: rest2 => (d = '\'' || d = '"' || d = '\\') && wellEscaped rest2
      | [] => false
    else wellEscaped rest

/-- Strengthening of `wellEscaped` that additionally forbids unescaped quote
characters in the content. -/
def goodContent : List Char → Bool
  | [] => true
  | c :: rest =>
    if c = '\\' then
      match rest with
      | d :: rest2 => (d = '\'' || d = '"' || d = '\\') && goodContent rest2
      | [] => false
    else (!(c = '\'' || c = '"')) && goodContent rest

/-- One scan step of `re.sub` with pattern `</?(?:b|i|em|strong|span)>`
(lines 284 and 201): strip every occurrence of the ten literal inline tags,
scanning left to right. -/
def removeTags : List Char → List Char
  | '<' :: 'b' :: '>' :: rest => removeTags rest
  | '<' :: '/' :: 'b' :: '>' :: rest => removeTags rest
  | '<' :: 'i' :: '>' :: rest => removeTags rest
  | '<' :: '/' :: 'i' :: '>' :: rest => removeTags rest
  | '<' :: 'e' :: 'm' :: '>' :: rest => removeTags rest
  | '<' :: '/' :: 'e' :: 'm' :: '>' :: rest => removeTags rest
  | '<' :: 's' :: 't' :: 'r' :: 'o' :: 'n' :: 'g' :: '>' :: rest => removeTags rest
  | '<' :: '/' :: 's' :: 't' :: 'r' :: 'o' :: 'n' :: 'g' :: '>' :: rest => removeTags rest
  | '<' :: 's' :: 'p' :: 'a' :: 'n' :: '>' :: rest => removeTags rest
  | '<' :: '/' :: 's' :: 'p' :: 'a' :: 'n' :: '>' :: rest => removeTags rest
  | c :: rest => c :: removeTags rest
  | [] => []

/-- The nested-tag complexity check of `extract_html_strings_from_js`
(lines 283-286): the matched text contains an angle-bracket pair and still
contains an opening bracket after the simple inline tags are stripped. -/
def complexNested (text : List Char) : Bool :=
  text.contains '<' && text.contains '>' && (removeTags text).contains '<'

/-- The three JavaScript quote characters accepted by the capture group
`(["'` + backtick + `])`. -/
def isJsQuote (c : Char) : Bool :=
  c = '"' || c = '\'' || c = '\x60'

/-- ASCII model of Python's regex class `\s`. -/
def isPySpace (c : Char) : Bool :=
  c = ' ' || c = '\t' || c = '\n' || c = '\r' || c = '\x0b' || c = '\x0c'

/-- All ways the lazy body `((?:\\.|[^\\])*?)` can end at an unescaped
closing quote `q`, in the order the regex engine tries them (shortest
first).  `prev` is the character just before the current position, used for
the negative lookbehind `(?<!\\)` guarding the closing quote. -/
def closeSplits (q : Char) : Char → List Char → List (List Char × List Char)
  | _, [] => []
  | prev, c :: rest =>
    let deeper :=
      if c = '\\' then
        match rest with
        | d :: rest2 => (closeSplits q d rest2).map (fun p => (c :: d :: p.1, p.2))
        | [] => []
      else (closeSplits q c rest).map (fun p => (c :: p.1, p.2))
    if c = q ∧ prev ≠ '\\' then ([], rest) :: deeper else deeper

/-- Matcher for `template_literal_pattern` (line 266) at the current
position: the substitution syntax, then the translation function applied to
one quoted literal, closing with the pattern tail after the quote.  On
success it yields the captured group 2 and the remainder of the input after
the match. -/
def matchTemplateAt : List Char → Option (List Char × List Char)
  | '$' :: '\x7b' :: 'l' :: rest =>
    match rest.dropWhile isPySpace with
    | '(' :: r2 =>
      match r2.dropWhile isPySpace with
      | q :: r3 =>
        if isJsQuote q then
          (closeSplits q q r3).findSome? (fun p =>
            match p.2.dropWhile isPySpace with
            | ')' :: '\x7d' :: rem => some (p.1, rem)
            | _ => none)
        else none
      | [] => none
    | _ => none
  | _ => none

/-- Fuelled scan of `re.finditer` with `template_literal_pattern`: try each
start position from left to right, and continue after the end of every
match.  Every step consumes at least one character, so fuel equal to the
length of the input is enough. -/
def templateMatchesAux : Nat → List Char → List (List Char)
  | 0, _ => []
  | _ + 1, [] => []
  | n + 1, c :: rest =>
    match matchTemplateAt (c :: rest) with
    | some (body, rem) => body :: templateMatchesAux n rem
    | none => templateMatchesAux n rest

/-- All group-2 captures of `template_literal_pattern` in the text, in
match order (`re.finditer`, line 290; `re.search` at line 307 succeeds
exactly when this list is non-empty). -/
def templateMatches (cs : List Char) : List (List Char) :=
  templateMatchesAux cs.length cs

/-- Strings recorded by one iteration of the match loop of
`extract_html_strings_from_js` (lines 281-317), given the inner text of the
tagged-element match: discard everything when the nested-tag complexity
check fires; otherwise record the unescaped non-empty inner substitution
arguments, and record the outer text itself only when the text holds no
substitution application at all. -/
def processJsMatch (text : List Char) : List (List Char) :=
  if complexNested text then []
  else if text.isEmpty then []
  else
    let tms := templateMatches text
    let inner := (tms.filter (fun g => !g.isEmpty)).map unescape
    if tms.isEmpty then [text] else inner

/-- The inner text `<div>x</div>${l('A')}` (braces written as characters):
it fails the complexity check because of the div tags, yet contains one
substitution application with argument `A`. -/
def embeddedCexText : List Char :=
  ("<div>x</div>$\x7bl('A')\x7d").toList

/-- Code-point lexicographic comparison of character lists, the order
Python's `sorted` uses on strings. -/
def lexLt : List Char → List Char → Bool
  | [], [] => false
  | [], _ :: _ => true
  | _ :: _, [] => false
  | a :: as, b :: bs =>
    if a.toNat < b.toNat then true
    else if b.toNat < a.toNat then false
    else lexLt as bs

/-- Non-strict string comparison derived from `lexLt`. -/
def strLe (a b : String) : Bool :=
  !(lexLt b.data a.data)

/-- Model of Python's `sorted` on a list of distinct strings: any sort by
the code-point order; insertion sort is used so that the definition
evaluates by kernel reduction. -/
def sortStrings (l : List String) : List String :=
  List.insertionSort (fun a b => strLe a b = true) l

/-- A JSON object in file order: Python dicts preserve insertion order. -/
abbrev Catalog := List (String × String)

/-- `m.get(k, dflt)` on a Python dict. -/
def dictGet (m : Catalog) (k dflt : String) : String :=
  (m.lookup k).getD dflt

/-- `m[k] = v` on a Python dict: updating an existing key keeps its
position, a new key is appended at the end. -/
def dictInsert (m : Catalog) (k v : String) : Catalog :=
  if (m.lookup k).isSome then
    m.map (fun p => if p.1 = k then (k, v) else p)
  else m ++ [(k, v)]

/-- The keys assigned by `export_to_base_json` in assignment order
(lines 119-131): sorted reserved keys first, then the sorted used strings,
then the trailing empty key. -/
def exportKeys (used : List String) : List String :=
  sortStrings SPECIAL_KEYS_LIST ++ sortStrings used ++ [""]

/-- The `new_data` object built by `export_to_base_json` (lines 105-131):
successive ordered-dict assignments of every export key to its prior value
in the existing file when defined there, else to the empty placeholder. -/
def export_to_base_json (used : List String) (existing_data : Catalog) : Catalog :=
  (exportKeys used).foldl
    (fun m k => dictInsert m k (dictGet existing_data k (""))) []

/-- Return value of `main` (lines 409-411, 473, 530-535): in export mode, 0
exactly when the export write succeeded; in comparison mode — whether the
output format is JSON (line 473) or text (lines 530-535) — 1 exactly when
`missing` or `unused` is non-empty (Python truthiness of a set). -/
def mainReturn (exportBase jsonOutput exportOk : Bool)
    (missing unused : Finset String) : Nat :=
  if exportBase then
    if exportOk then 0 else 1
  else if jsonOutput then
    if missing.Nonempty ∨ unused.Nonempty then 1 else 0
  else
    if missing.Nonempty ∨ unused.Nonempty then 1 else 0

lemma mem_used_strings {allUsed : Finset String} {s : String} :
    s ∈ used_strings allUsed ↔ s ∈ allUsed ∧ should_exclude_string s = false := by
  simp only [used_strings, excluded_strings, Finset.mem_filter, not_and]
  constructor
  · rintro ⟨hmem, hnot⟩
    refine ⟨hmem, ?_⟩
    cases h : should_exclude_string s with
    | false => rfl
    | true => exact absurd h (hnot hmem)
  · rintro ⟨hmem, hfalse⟩
    exact ⟨hmem, fun _ htrue => by simp [hfalse] at htrue⟩

lemma not_mem_used_of_excluded {allUsed : Finset String} {s : String}
    (hs : should_exclude_string s = true) : s ∉ used_strings allUsed := by
  intro h
  have := (mem_used_strings.mp h).2
  simp [hs] at this

/-- C1: in comparison mode the comparator computes exactly
`missing = kept_strings − (union_keys − reserved_keys)` and
`unused = (union_keys − reserved_keys) − kept_strings − allow_list`, where
`kept_strings` is the extracted set surviving the exclusion filter,
`union_keys` the union of catalog keys, `reserved_keys` the fixed reserved
set and `allow_list` the fixed unused allow-list. -/
theorem comparator_formulas (allUsed translation_keys : Finset String) :
    missing_translations allUsed translation_keys
        = used_strings allUsed \ (translation_keys \ SPECIAL_KEYS)
      ∧ unused_translations allUsed translation_keys
        = ((translation_keys \ SPECIAL_KEYS) \ used_strings allUsed) \ WHITELIST_UNUSED :=
  ⟨rfl, rfl⟩

/-- C2: a reserved key never appears in `missing` nor in `unused`, whatever
the extracted strings and the catalog keys are.  (Both reserved keys match
the CSS-class-selector exclusion pattern, so even when referenced in source
they are dropped by the filter before the comparison.) -/
theorem special_keys_never_reported (allUsed translation_keys : Finset String)
    (k : String) (hk : k ∈ SPECIAL_KEYS) :
    k ∉ missing_translations allUsed translation_keys
      ∧ k ∉ unused_translations allUsed translation_keys := by
  have hexcl : should_exclude_string k = true := by
    have hcases : k = ".authorMsg" ∨ k = ".title" := by
      simpa [SPECIAL_KEYS, Finset.mem_insert] using hk
    rcases hcases with h | h <;> subst h <;> decide
  constructor
  · intro hmem
    exact not_mem_used_of_excluded hexcl (Finset.mem_sdiff.mp hmem).1
  · intro hmem
    have h1 := (Finset.mem_sdiff.mp (Finset.mem_sdiff.mp hmem).1).1
    exact (Finset.mem_sdiff.mp h1).2 hk

theorem special_keys_never_reported_witness :
    (".title" ∈ SPECIAL_KEYS)
      ∧ ((".title" ∉ missing_translations {".title"} {".title", "Save"})
          ∧ ".title" ∉ unused_translations {".title"} {".title", "Save"}) :=
  ⟨by decide, special_keys_never_reported _ _ _ (by decide)⟩

/-- C3 counterexample: the excluded string `".hide"`, when present as a
catalog key, is reported as unused — exclusion filters only the extracted
side, not the catalog side. -/
theorem excluded_string_in_unused_cex :
    should_exclude_string (".hide") = true
      ∧ (".hide") ∈ unused_translations (∅ : Finset String) {".hide"} := by
  constructor
  · decide
  · decide

/-- C3 (amended): a string matching an exclusion pattern never appears in
`missing`; it appears in `unused` exactly when it is among the union of
catalog keys, is not reserved and is not allow-listed. -/
theorem excluded_strings_reporting (allUsed translation_keys : Finset String)
    (s : String) (hs : should_exclude_string s = true) :
    s ∉ missing_translations allUsed translation_keys
      ∧ (s ∈ unused_translations allUsed translation_keys
          ↔ s ∈ translation_keys ∧ s ∉ SPECIAL_KEYS ∧ s ∉ WHITELIST_UNUSED) := by
  have hns : s ∉ used_strings allUsed := not_mem_used_of_excluded hs
  constructor
  · intro hmem
    exact hns (Finset.mem_sdiff.mp hmem).1
  · simp only [unused_translations, translation_keys_for_comparison, Finset.mem_sdiff]
    constructor
    · rintro ⟨⟨⟨h1, h2⟩, _⟩, h4⟩
      exact ⟨h1, h2, h4⟩
    · rintro ⟨h1, h2, h4⟩
      exact ⟨⟨⟨h1, h2⟩, hns⟩, h4⟩

theorem excluded_strings_reporting_witness :
    should_exclude_string ("#root") = true
      ∧ (("#root" ∉ missing_translations {"#root"} (∅ : Finset String))
          ∧ ("#root" ∈ unused_translations {"#root"} (∅ : Finset String)
              ↔ "#root" ∈ (∅ : Finset String) ∧ "#root" ∉ SPECIAL_KEYS
                  ∧ "#root" ∉ WHITELIST_UNUSED)) :=
  ⟨by decide, excluded_strings_reporting _ _ _ (by decide)⟩

/-- C4: an allow-listed string never appears in `unused`, and it appears in
`missing` exactly when it survives the exclusion filter while being absent
from the reserved-key-stripped union of catalog keys — the allow-list is
subtracted only from the unused computation. -/
theorem whitelist_only_suppresses_unused (allUsed translation_keys : Finset String)
    (w : String) (hw : w ∈ WHITELIST_UNUSED) :
    w ∉ unused_translations allUsed translation_keys
      ∧ (w ∈ missing_translations allUsed translation_keys
          ↔ w ∈ used_strings allUsed ∧ w ∉ translation_keys \ SPECIAL_KEYS) := by
  constructor
  · intro hmem
    exact (Finset.mem_sdiff.mp hmem).2 hw
  · simp only [missing_translations, translation_keys_for_comparison, Finset.mem_sdiff]

theorem whitelist_only_suppresses_unused_witness :
    ("Continue" ∈ WHITELIST_UNUSED)
      ∧ (("Continue" ∉ unused_translations {"Continue"} (∅ : Finset String))
          ∧ ("Continue" ∈ missing_translations {"Continue"} (∅ : Finset String)
              ↔ "Continue" ∈ used_strings {"Continue"}
                  ∧ "Continue" ∉ (∅ : Finset String) \ SPECIAL_KEYS))
      ∧ "Continue" ∈ missing_translations {"Continue"} (∅ : Finset String) :=
  ⟨by decide, whitelist_only_suppresses_unused _ _ _ (by decide), by decide⟩

lemma replace2Fuel_congr (a b r : Char) : ∀ (k n m : Nat) (l : List Char),
    l.length ≤ k → l.length ≤ n → l.length ≤ m →
    replace2Fuel a b r n l = replace2Fuel a b r m l := by
  intro k
  induction k with
  | zero =>
    intro n m l hk _ _
    have hnil : l = [] := List.eq_nil_of_length_eq_zero (Nat.le_zero.mp hk)
    subst hnil
    cases n <;> cases m <;> rfl
  | succ k ih =>
    intro n m l hk hn hm
    cases l with
    | nil => cases n <;> cases m <;> rfl
    | cons c rest =>
      match n, m with
      | 0, _ => simp at hn
      | _ + 1, 0 => simp at hm
      | n' + 1, m' + 1 =>
        simp only [List.length_cons, Nat.add_le_add_iff_right] at hk hn hm
        by_cases hc : c = a
        · cases rest with
          | nil => simp [replace2Fuel, hc]
          | cons d rest2 =>
            by_cases hd : d = b
            · simp only [replace2Fuel, if_pos hc, if_pos hd]
              exact congrArg _ (ih n' m' rest2 (by simpa using Nat.le_of_succ_le hk)
                (by simpa using Nat.le_of_succ_le hn) (by simpa using Nat.le_of_succ_le hm))
            · simp only [replace2Fuel, if_pos hc, if_neg hd]
              exact congrArg _ (ih n' m' (d :: rest2) (by simpa using hk)
                (by simpa using hn) (by simpa using hm))
        · simp only [replace2Fuel, if_neg hc]
          exact congrArg _ (ih n' m' rest hk hn hm)

lemma replace2Fuel_eq {a b r : Char} {n : Nat} {l : List Char}
    (h : l.length ≤ n) : replace2Fuel a b r n l = replace2 a b r l :=
  replace2Fuel_congr a b r n n l.length l h h le_rfl

lemma reescape_cons (c : Char) (l : List Char) :
    reescape (c :: l) = escChar c ++ reescape l := by
  simp [reescape]

lemma replace2_nil (a b r : Char) : replace2 a b r [] = [] := rfl

lemma replace2_cons_ne {a : Char} (b r : Char) {c : Char} (l : List Char)
    (h : c ≠ a) : replace2 a b r (c :: l) = c :: replace2 a b r l := by
  show replace2Fuel a b r (c :: l).length (c :: l) = _
  simp only [List.length_cons, replace2Fuel, if_neg h]
  exact congrArg _ (replace2Fuel_eq le_rfl)

lemma replace2Fuel_succ_cons (a b r c : Char) (n : Nat) (l : List Char) :
    replace2Fuel a b r (n + 1) (c :: l)
      = if c = a then
          (match l with
            | d :: rest2 =>
              if d = b then r :: replace2Fuel a b r n rest2
              else c :: replace2Fuel a b r n (d :: rest2)
            | [] => [c])
        else c :: replace2Fuel a b r n l := rfl

lemma replace2_cons_a (a : Char) {b : Char} (r : Char) {l : List Char}
    (h : l.head? ≠ some b) : replace2 a b r (a :: l) = a :: replace2 a b r l := by
  show replace2Fuel a b r (a :: l).length (a :: l) = _
  rw [List.length_cons, replace2Fuel_succ_cons, if_pos rfl]
  cases l with
  | nil => rfl
  | cons d rest =>
    have hd : d ≠ b := by simpa using h
    show (if d = b then r :: replace2Fuel a b r (d :: rest).length rest
          else a :: replace2Fuel a b r (d :: rest).length (d :: rest))
        = a :: replace2 a b r (d :: rest)
    rw [if_neg hd, replace2Fuel_eq le_rfl]

lemma replace2_cons_match (a b r : Char) (l : List Char) :
    replace2 a b r (a :: b :: l) = r :: replace2 a b r l := by
  show replace2Fuel a b r (a :: b :: l).length (a :: b :: l) = _
  rw [List.length_cons, replace2Fuel_succ_cons, if_pos rfl]
  show (if b = b then r :: replace2Fuel a b r (b :: l).length l
        else a :: replace2Fuel a b r (b :: l).length (b :: l))
      = r :: replace2 a b r l
  rw [if_pos rfl, replace2Fuel_eq (by simp)]

lemma goodContent_nil : goodContent [] = true := rfl

lemma goodContent_bs_nil : goodContent ['\\'] = false := by decide

lemma goodContent_bs_cons (d : Char) (rest : List Char) :
    goodContent ('\\' :: d :: rest)
      = ((d = '\'' || d = '"' || d = '\\') && goodContent rest) := rfl

lemma goodContent_cons_eq (c : Char) (rest : List Char) :
    goodContent (c :: rest)
      = if c = '\\' then
          (match rest with
            | d :: rest2 => (d = '\'' || d = '"' || d = '\\') && goodContent rest2
            | [] => false)
        else (!(c = '\'' || c = '"')) && goodContent rest := by
  cases rest <;> rfl

lemma goodContent_cons {c : Char} (h : c ≠ '\\') (rest : List Char) :
    goodContent (c :: rest)
      = ((!(c = '\'' || c = '"')) && goodContent rest) := by
  rw [goodContent_cons_eq, if_neg h]

lemma goodContent_bs_elim {d : Char} {rest : List Char}
    (hg : goodContent ('\\' :: d :: rest) = true) :
    (d = '\'' ∨ d = '"' ∨ d = '\\') ∧ goodContent rest = true := by
  rw [goodContent_bs_cons, Bool.and_eq_true] at hg
  refine ⟨?_, hg.2⟩
  have h1 := hg.1
  simp only [Bool.or_eq_true, decide_eq_true_eq] at h1
  tauto

lemma goodContent_cons_elim {c : Char} {rest : List Char} (h : c ≠ '\\')
    (hg : goodContent (c :: rest) = true) :
    (c ≠ '\'' ∧ c ≠ '"') ∧ goodContent rest = true := by
  rw [goodContent_cons h, Bool.and_eq_true] at hg
  refine ⟨?_, hg.2⟩
  have h1 := hg.1
  simp only [Bool.not_eq_true', Bool.or_eq_false_iff, decide_eq_false_iff_not] at h1
  exact h1

lemma goodContent_head_ne_quote {l : List Char} (h : goodContent l = true) :
    l.head? ≠ some '\'' := by
  cases l with
  | nil => simp
  | cons c rest =>
    intro hc
    have hc' : c = '\'' := by simpa using hc
    subst hc'
    have := (goodContent_cons_elim (by decide) h).1.1
    exact this rfl

lemma p1_head_ne_dquote {l : List Char} (h : goodContent l = true) :
    (replace2 '\\' '\'' '\'' l).head? ≠ some '"' := by
  cases l with
  | nil => simp [replace2_nil]
  | cons c rest =>
    by_cases hc : c = '\\'
    · subst hc
      cases rest with
      | nil => rw [goodContent_bs_nil] at h; cases h
      | cons d rest2 =>
        by_cases hd : d = '\''
        · subst hd
          rw [replace2_cons_match]
          simp
        · rw [replace2_cons_a _ _ (by simpa using hd)]
          simp
    · rw [replace2_cons_ne _ _ _ hc]
      have hq := (goodContent_cons_elim hc h).1.2
      simpa using hq

lemma roundtrip_aux : ∀ (n : Nat) (l : List Char), l.length ≤ n →
    goodContent l = true → reescape (unescape l) = l := by
  intro n
  induction n with
  | zero =>
    intro l hl _
    have hnil : l = [] := List.eq_nil_of_length_eq_zero (Nat.le_zero.mp hl)
    subst hnil
    rfl
  | succ n ih =>
    intro l hl hg
    rcases l with _ | ⟨c, _ | ⟨d, rest⟩⟩
    · rfl
    · by_cases hc : c = '\\'
      · subst hc
        rw [goodContent_bs_nil] at hg
        cases hg
      · obtain ⟨⟨h1, h2⟩, _⟩ := goodContent_cons_elim hc hg
        have e1 : ∀ (b' r' : Char), replace2 '\\' b' r' [c] = [c] := by
          intro b' r'
          rw [replace2_cons_ne _ _ _ hc, replace2_nil]
        show reescape (replace2 '\\' '\\' '\\'
          (replace2 '\\' '"' '"' (replace2 '\\' '\'' '\'' [c]))) = [c]
        rw [e1, e1, e1, reescape_cons]
        simp [reescape, escChar, hc, h1, h2]
    · have hlen2 : rest.length ≤ n := by
        simp only [List.length_cons] at hl
        omega
      have hlen1 : (d :: rest).length ≤ n := by
        simp only [List.length_cons] at hl ⊢
        omega
      by_cases hc : c = '\\'
      · subst hc
        obtain ⟨hd, hrest⟩ := goodContent_bs_elim hg
        rcases hd with hd | hd | hd
        · subst hd
          have e1 : unescape ('\\' :: '\'' :: rest) = '\'' :: unescape rest := by
            unfold unescape
            rw [replace2_cons_match,
              replace2_cons_ne _ _ _ (by decide : ('\'' : Char) ≠ '\\'),
              replace2_cons_ne _ _ _ (by decide : ('\'' : Char) ≠ '\\')]
          rw [e1, reescape_cons, ih rest hlen2 hrest]
          rfl
        · subst hd
          have e1 : unescape ('\\' :: '"' :: rest) = '"' :: unescape rest := by
            unfold unescape
            rw [replace2_cons_a _ _ (by simp : (('"' :: rest).head? ≠ some '\'')),
              replace2_cons_ne _ _ _ (by decide : ('"' : Char) ≠ '\\'),
              replace2_cons_match,
              replace2_cons_ne _ _ _ (by decide : ('"' : Char) ≠ '\\')]
          rw [e1, reescape_cons, ih rest hlen2 hrest]
          rfl
        · subst hd
          have e1 : unescape ('\\' :: '\\' :: rest) = '\\' :: unescape rest := by
            unfold unescape
            rw [replace2_cons_a _ _ (by simp : (('\\' :: rest).head? ≠ some '\'')),
              replace2_cons_a _ _ (goodContent_head_ne_quote hrest),
              replace2_cons_a _ _
                (by simp : (('\\' :: replace2 '\\' '\'' '\'' rest).head? ≠ some '"')),
              replace2_cons_a _ _ (p1_head_ne_dquote hrest),
              replace2_cons_match]
          rw [e1, reescape_cons, ih rest hlen2 hrest]
          rfl
      · obtain ⟨⟨h1, h2⟩, hrest⟩ := goodContent_cons_elim hc hg
        have e1 : unescape (c :: d :: rest) = c :: unescape (d :: rest) := by
          unfold unescape
          rw [replace2_cons_ne _ _ _ hc, replace2_cons_ne _ _ _ hc,
            replace2_cons_ne _ _ _ hc]
        rw [e1, reescape_cons, ih (d :: rest) hlen1 hrest]
        simp [escChar, hc, h1, h2]

/-- C5 counterexample: the single-character content consisting of one bare
double quote (capturable from a backtick-quoted literal) has all its escape
sequences — vacuously — among escaped quotes and backslashes, yet unescaping
and re-escaping turns it into backslash-doublequote, not the original. -/
theorem escape_roundtrip_cex :
    wellEscaped ['"'] = true ∧ reescape (unescape ['"']) ≠ ['"'] := by
  constructor
  · decide
  · decide

/-- C5 (amended): for captured literal contents whose escape sequences are
limited to escaped quotes and escaped backslashes and which contain no bare
(unescaped) quote character, applying the recording-time unescaping and then
re-escaping quotes and backslashes reproduces the original content. -/
theorem escape_roundtrip (s : List Char) (hs : goodContent s = true) :
    reescape (unescape s) = s :=
  roundtrip_aux s.length s le_rfl hs

theorem escape_roundtrip_witness :
    goodContent ['\\', '\'', 'a', '\\', '\\', 'b'] = true
      ∧ reescape (unescape ['\\', '\'', 'a', '\\', '\\', 'b'])
          = ['\\', '\'', 'a', '\\', '\\', 'b'] :=
  ⟨by decide, escape_roundtrip _ (by decide)⟩

/-- C6 counterexample: on an inner text that still contains a non-inline
tag after stripping, the code records nothing at all — in particular the
inner substitution argument `A` is not extracted, although the claim says
the complexity check does not apply to the inner applications. -/
theorem embedded_markup_cex :
    templateMatches embeddedCexText = [['A']]
      ∧ processJsMatch embeddedCexText = [] := by
  constructor
  · decide
  · decide

/-- C6 (amended): the nested-tag complexity check is applied to the matched
text before either branch, discarding the match entirely — inner
applications included — when it fires; otherwise, each non-empty inner
substitution argument is recorded unescaped, and the outer text is recorded
exactly when no substitution application occurs in it. -/
theorem embedded_markup_extraction (text s : List Char) :
    s ∈ processJsMatch text ↔
      (complexNested text = false ∧ text ≠ []
        ∧ ((∃ g ∈ templateMatches text, g ≠ [] ∧ s = unescape g)
            ∨ (templateMatches text = [] ∧ s = text))) := by
  unfold processJsMatch
  cases hc : complexNested text with
  | true => simp [hc]
  | false =>
    simp only [if_neg (by simp [hc] : ¬ complexNested text = true)]
    cases text with
    | nil => simp
    | cons c rest =>
      simp only [List.isEmpty_cons, if_neg (by simp : ¬ false = true)]
      cases htm : templateMatches (c :: rest) with
      | nil => simp [htm]
      | cons g gs =>
        simp only [htm, if_neg (by simp : ¬ (g :: gs).isEmpty = true)]
        simp only [List.mem_map, List.mem_filter, Bool.not_eq_true', ne_eq]
        constructor
        · rintro ⟨g', ⟨hg1, hg2⟩, rfl⟩
          refine ⟨by simp, by simp, Or.inl ⟨g', hg1, ?_, rfl⟩⟩
          simpa using hg2
        · rintro ⟨_, _, h | h⟩
          · obtain ⟨g', hg1, hg2, rfl⟩ := h
            exact ⟨g', ⟨hg1, by simpa using hg2⟩, rfl⟩
          · exact absurd h.1 (by simp)

lemma dictInsert_fresh (m : Catalog) (k v : String) (h : m.lookup k = none) :
    dictInsert m k v = m ++ [(k, v)] := by
  simp [dictInsert, h]

lemma export_fold_fresh (f : String → String) : ∀ (ks : List String) (m : Catalog),
    ks.Nodup → (∀ k ∈ ks, m.lookup k = none) →
    ks.foldl (fun m k => dictInsert m k (f k)) m = m ++ ks.map (fun k => (k, f k)) := by
  intro ks
  induction ks with
  | nil =>
    intro m _ _
    simp
  | cons k ks ih =>
    intro m hnd hfresh
    have hk : m.lookup k = none := hfresh k (by simp)
    simp only [List.foldl_cons, dictInsert_fresh m k _ hk]
    rw [ih (m ++ [(k, f k)]) (List.nodup_cons.mp hnd).2 ?_]
    · simp
    · intro k' hk'
      have hne : k' ≠ k := fun h => (List.nodup_cons.mp hnd).1 (h ▸ hk')
      rw [List.lookup_append, hfresh k' (by simp [hk']), Option.none_or]
      simp [List.lookup, beq_eq_false_iff_ne.mpr hne]

lemma sortStrings_nodup {l : List String} (h : l.Nodup) : (sortStrings l).Nodup :=
  (List.perm_insertionSort _ l).nodup_iff.mpr h

lemma mem_sortStrings {l : List String} {x : String} :
    x ∈ sortStrings l ↔ x ∈ l :=
  (List.perm_insertionSort _ l).mem_iff

lemma sortStrings_special : sortStrings SPECIAL_KEYS_LIST = [".authorMsg", ".title"] := by
  decide

lemma exportKeys_nodup (used : List String) (hnd : used.Nodup)
    (hdisj : ∀ u ∈ used, u ∉ SPECIAL_KEYS_LIST ∧ u ≠ "") :
    (exportKeys used).Nodup := by
  rw [exportKeys, sortStrings_special]
  simp only [List.nodup_append]
  refine ⟨⟨by decide, sortStrings_nodup hnd, ?_⟩, by decide, ?_⟩
  · intro a ha hb
    have ha' : a = ".authorMsg" ∨ a = ".title" := by simpa using ha
    have hbu : a ∈ used := mem_sortStrings.mp hb
    have := (hdisj a hbu).1
    simp only [SPECIAL_KEYS_LIST] at this
    rcases ha' with h | h <;> subst h <;> simp at this
  · intro a ha hb
    have hb' : a = "" := by simpa using hb
    subst hb'
    rcases List.mem_append.mp ha with h | h
    · exact absurd h (by decide)
    · exact (hdisj _ (mem_sortStrings.mp h)).2 rfl

lemma export_to_base_json_eq (used : List String) (E : Catalog)
    (hnd : used.Nodup)
    (hdisj : ∀ u ∈ used, u ∉ SPECIAL_KEYS_LIST ∧ u ≠ "") :
    export_to_base_json used E
      = (exportKeys used).map (fun k => (k, dictGet E k (""))) := by
  have h := export_fold_fresh (fun k => dictGet E k ("")) (exportKeys used) []
    (exportKeys_nodup used hnd hdisj) (by intro k _; rfl)
  simpa [export_to_base_json] using h

lemma lookup_map_graph (f : String → String) : ∀ (ks : List String) (k : String),
    k ∈ ks → (ks.map (fun x => (x, f x))).lookup k = some (f k) := by
  intro ks
  induction ks with
  | nil =>
    intro k hk
    cases hk
  | cons a ks ih =>
    intro k hk
    by_cases hka : k = a
    · subst hka
      simp [List.lookup]
    · have hmem : k ∈ ks := by
        rcases List.mem_cons.mp hk with h | h
        · exact absurd h hka
        · exact h
      simp [List.lookup, beq_eq_false_iff_ne.mpr hka, ih k hmem]

/-- C7: the exported catalog object consists of the reserved keys in sorted
order, then every kept string in sorted order, each key mapped to its value
in the existing file when defined there and to the empty string otherwise,
followed by the trailing empty key carrying its prior value; every key of
the existing file that is neither reserved nor kept nor empty is dropped,
and surviving values are preserved verbatim. -/
theorem export_structure (used : List String) (E : Catalog)
    (hnd : used.Nodup)
    (hdisj : ∀ u ∈ used, u ∉ SPECIAL_KEYS_LIST ∧ u ≠ "") :
    export_to_base_json used E
        = (sortStrings SPECIAL_KEYS_LIST).map (fun k => (k, dictGet E k ("")))
          ++ (sortStrings used).map (fun s => (s, dictGet E s ("")))
          ++ [("", dictGet E ("") (""))]
      ∧ (∀ p ∈ export_to_base_json used E,
          (p.1 ∈ SPECIAL_KEYS_LIST ∨ p.1 ∈ used ∨ p.1 = "")
            ∧ p.2 = dictGet E p.1 ("")) := by
  have h := export_to_base_json_eq used E hnd hdisj
  constructor
  · rw [h, exportKeys]
    simp [List.map_append]
  · intro p hp
    rw [h] at hp
    obtain ⟨k, hk, rfl⟩ := List.mem_map.mp hp
    refine ⟨?_, rfl⟩
    simp only [exportKeys, List.mem_append, mem_sortStrings, List.mem_singleton] at hk
    tauto

theorem export_structure_witness :
    ((["Save", "Cancel"] : List String).Nodup
        ∧ ∀ u ∈ (["Save", "Cancel"] : List String), u ∉ SPECIAL_KEYS_LIST ∧ u ≠ "")
      ∧ export_to_base_json ["Save", "Cancel"] [("Save", "Guardar")]
          = (sortStrings SPECIAL_KEYS_LIST).map
              (fun k => (k, dictGet [("Save", "Guardar")] k ("")))
            ++ (sortStrings ["Save", "Cancel"]).map
              (fun s => (s, dictGet [("Save", "Guardar")] s ("")))
            ++ [("", dictGet [("Save", "Guardar")] ("") (""))] :=
  ⟨⟨by decide, by decide⟩, (export_structure _ _ (by decide) (by decide)).1⟩

/-- C8: exporting is idempotent — running the exporter again with the same
kept string set over the catalog produced by a first run yields the
identical catalog object, with translated values preserved. -/
theorem export_idempotent (used : List String) (E : Catalog)
    (hnd : used.Nodup)
    (hdisj : ∀ u ∈ used, u ∉ SPECIAL_KEYS_LIST ∧ u ≠ "") :
    export_to_base_json used (export_to_base_json used E)
      = export_to_base_json used E := by
  have h1 := export_to_base_json_eq used E hnd hdisj
  have h2 := export_to_base_json_eq used (export_to_base_json used E) hnd hdisj
  rw [h2, h1]
  apply List.map_congr_left
  intro k hk
  have hlook := lookup_map_graph (fun x => dictGet E x ("")) (exportKeys used) k hk
  simp only [dictGet] at hlook
  simp only [dictGet, hlook, Option.getD_some]

theorem export_idempotent_witness :
    ((["Cancel"] : List String).Nodup
        ∧ ∀ u ∈ (["Cancel"] : List String), u ∉ SPECIAL_KEYS_LIST ∧ u ≠ "")
      ∧ export_to_base_json ["Cancel"] (export_to_base_json ["Cancel"] [])
          = export_to_base_json ["Cancel"] [] :=
  ⟨⟨by decide, by decide⟩, export_idempotent _ _ (by decide) (by decide)⟩

/-- C9: the exit status is 0 iff either the run is a comparison run (any
output mode) with both the missing and the unused set empty, or an export
run whose write succeeded; and it is 1 iff either a comparison run has a
non-empty missing or unused set, or an export run failed to write. -/
theorem exit_status_correct (exportBase jsonOutput exportOk : Bool)
    (allUsed translation_keys : Finset String) :
    (mainReturn exportBase jsonOutput exportOk
          (missing_translations allUsed translation_keys)
          (unused_translations allUsed translation_keys) = 0
        ↔ ((exportBase = true ∧ exportOk = true)
            ∨ (exportBase = false
                ∧ missing_translations allUsed translation_keys = ∅
                ∧ unused_translations allUsed translation_keys = ∅)))
      ∧ (mainReturn exportBase jsonOutput exportOk
          (missing_translations allUsed translation_keys)
          (unused_translations allUsed translation_keys) = 1
        ↔ ((exportBase = true ∧ exportOk = false)
            ∨ (exportBase = false
                ∧ (missing_translations allUsed translation_keys ≠ ∅
                    ∨ unused_translations allUsed translation_keys ≠ ∅)))) := by
  unfold mainReturn
  rcases exportBase with _ | _ <;> rcases jsonOutput with _ | _ <;>
    rcases exportOk with _ | _ <;>
      simp [Finset.nonempty_iff_ne_empty] <;> tauto

/-- C10: the missing and the unused set of a comparison run are disjoint:
every missing string lies in the kept used-string set, while every unused
string lies outside of it. -/
theorem missing_unused_disjoint (allUsed translation_keys : Finset String) :
    missing_translations allUsed translation_keys
        ∩ unused_translations allUsed translation_keys = ∅
      ∧ missing_translations allUsed translation_keys ⊆ used_strings allUsed
      ∧ unused_translations allUsed translation_keys ∩ used_strings allUsed = ∅ := by
  refine ⟨?_, ?_, ?_⟩
  · ext s
    simp only [Finset.mem_inter, Finset.mem_sdiff, Finset.not_mem_empty, iff_false,
      missing_translations, unused_translations]
    rintro ⟨⟨hused, _⟩, ⟨_, hnotused⟩, _⟩
    exact hnotused hused
  · intro s hs
    exact (Finset.mem_sdiff.mp hs).1
  · ext s
    simp only [Finset.mem_inter, Finset.mem_sdiff, Finset.not_mem_empty, iff_false,
      unused_translations]
    rintro ⟨⟨⟨_, hnotused⟩, _⟩, hused⟩
    exact hnotused hused

end CheckTranslations
